import Mathlib

/-!
# Sokoban rule engine: a shallow embedding of `Sokoban.cpp`

The embedding follows `src/Sokoban.hpp` / `src/Sokoban.cpp`:

* `sf::Vector2u` is a pair of `unsigned int`; coordinates are natural numbers and
  every arithmetic step of the source is reduced modulo `2 ^ 32` where the source
  computes in `unsigned int`.
* `std::vector<std::vector<char>>` is `List (List Char)`; a subscript outside the
  vector is undefined in C++ and makes the embedded operation return `none`.
* The textures only matter through which sprite `currentPlayerTexture` points to.
-/

namespace SokobanGame

/-! ## Data model -/

/-- The `sf::Vector2u` of the source: two `unsigned int` coordinates. -/
structure Vector2u where
  x : Nat
  y : Nat
  deriving DecidableEq, Repr

/-- The `enum Direction` of `Sokoban.hpp`. -/
inductive Direction where
  | Up
  | Down
  | Left
  | Right
  deriving DecidableEq, Repr

/-- The sprite `currentPlayerTexture` points to. -/
inductive Texture where
  | playerTextureUp
  | playerTextureDown
  | playerTextureLeft
  | playerTextureRight
  deriving DecidableEq, Repr

/-- The private data members of `class Sokoban` that carry game state. -/
structure Sokoban where
  currentPlayerTexture : Texture
  playerPos : Vector2u
  cratePositions : List Vector2u
  targetPositions : List Vector2u
  initialPlayerPos : Vector2u
  initialCratePositions : List Vector2u
  initialTiles : List (List Char)
  tiles : List (List Char)
  deriving DecidableEq, Repr

/-- The constructor `Sokoban::Sokoban()`: every vector is empty, the positions are
value-initialised to `(0, 0)` and the default sprite faces down. -/
def Sokoban.new : Sokoban :=
  { currentPlayerTexture := Texture.playerTextureDown
    playerPos := ⟨0, 0⟩
    cratePositions := []
    targetPositions := []
    initialPlayerPos := ⟨0, 0⟩
    initialCratePositions := []
    initialTiles := []
    tiles := [] }

/-! ## Machine integers -/

/-- Conversion of a size to `int` (32 bits, two's complement). -/
def toInt (n : Nat) : Int :=
  if n % 2 ^ 32 < 2 ^ 31 then ((n % 2 ^ 32 : Nat) : Int) else ((n % 2 ^ 32 : Nat) : Int) - 2 ^ 32

/-- Conversion of an `int` to `unsigned int`, as done when it is compared with one. -/
def toUnsigned (z : Int) : Nat :=
  (z % 2 ^ 32).toNat

/-- The sum `a + d` of an `unsigned int` and an `int`, computed in `unsigned int`. -/
def addUnsigned (a : Nat) (d : Int) : Nat :=
  (((a : Int) + d) % 2 ^ 32).toNat

/-! ## Queries -/

/-- `Sokoban::width()`. -/
def width (s : Sokoban) : Int :=
  match s.tiles with
  | [] => 0
  | row :: _ => toInt row.length

/-- `Sokoban::height()`. -/
def height (s : Sokoban) : Int :=
  toInt s.tiles.length

/-- The subscript `tiles[y][x]`; `none` when either index is out of range. -/
def tileAt (tiles : List (List Char)) (y x : Nat) : Option Char :=
  match tiles[y]? with
  | none => none
  | some row => row[x]?

/-- `Sokoban::isWon()`. -/
def isWon (s : Sokoban) : Bool :=
  let allBoxesOnTargets :=
    s.cratePositions.all (fun crate => s.targetPositions.any (fun target => crate == target))
  let allTargetsHaveBoxes :=
    s.targetPositions.all (fun target => s.cratePositions.any (fun crate => crate == target))
  if s.cratePositions.length ≤ s.targetPositions.length then
    allBoxesOnTargets
  else
    allTargetsHaveBoxes

/-! ## Moving -/

/-- The value `dx` chosen by the `switch` of `movePlayer`. -/
def Direction.dx : Direction → Int
  | Direction.Left => -1
  | Direction.Right => 1
  | _ => 0

/-- The value `dy` chosen by the `switch` of `movePlayer`. -/
def Direction.dy : Direction → Int
  | Direction.Up => -1
  | Direction.Down => 1
  | _ => 0

/-- The sprite chosen by the `switch` of `movePlayer`. -/
def Direction.texture : Direction → Texture
  | Direction.Up => Texture.playerTextureUp
  | Direction.Down => Texture.playerTextureDown
  | Direction.Left => Texture.playerTextureLeft
  | Direction.Right => Texture.playerTextureRight

/-- The search `std::find_if(first, last, pred)`: the index of the first element
satisfying `pred`, `none` for the end iterator. -/
def findIf {α : Type} (pred : α → Bool) : List α → Option Nat
  | [] => none
  | a :: l => if pred a then some 0 else (findIf pred l).map (· + 1)

/-- The lambda `crateAtPosition` of `movePlayer`. -/
def crateAtPosition (s : Sokoban) (x y : Nat) : Bool :=
  (findIf (fun crate : Vector2u => crate.x == x && crate.y == y) s.cratePositions).isSome

/-- `Sokoban::movePlayer(d)`: the returned flag and the board afterwards;
`none` when a tile subscript is out of range. The tests `newX < 0` and `newY < 0` of the
source are made on `unsigned int` values; the iterator `it` is the index of the crate found
and is dereferenced through it. -/
def movePlayer (s : Sokoban) (d : Direction) : Option (Bool × Sokoban) :=
  let dx := d.dx
  let dy := d.dy
  let s1 := { s with currentPlayerTexture := d.texture }
  let newX := addUnsigned s1.playerPos.x dx
  let newY := addUnsigned s1.playerPos.y dy
  if newX ≥ toUnsigned (width s1) ∨ newY ≥ toUnsigned (height s1) ∨ newX < 0 ∨ newY < 0 then
    some (false, s1)
  else
    match tileAt s1.tiles newY newX with
    | none => none
    | some tile =>
      if tile = '#' then
        some (false, s1)
      else
        match findIf (fun crate : Vector2u => crate.x == newX && crate.y == newY)
            s1.cratePositions with
        | some it =>
          match s1.cratePositions[it]? with
          | none => none
          | some crate =>
            let newCrateX := addUnsigned crate.x dx
            let newCrateY := addUnsigned crate.y dy
            if newCrateX ≥ toUnsigned (width s1) ∨ newCrateY ≥ toUnsigned (height s1) ∨
                newCrateX < 0 ∨ newCrateY < 0 then
              some (false, s1)
            else
              match tileAt s1.tiles newCrateY newCrateX with
              | none => none
              | some crateTile =>
                if crateTile = '#' ∨ crateAtPosition s1 newCrateX newCrateY = true then
                  some (false, s1)
                else
                  some (true,
                    { s1 with
                      cratePositions := s1.cratePositions.set it ⟨newCrateX, newCrateY⟩
                      playerPos := ⟨newX, newY⟩ })
        | none => some (true, { s1 with playerPos := ⟨newX, newY⟩ })

/-- A finite sequence of `movePlayer` calls, the returned flags being dropped as in
`main.cpp`. -/
def movePlayers (s : Sokoban) : List Direction → Option Sokoban
  | [] => some s
  | d :: ds =>
    match movePlayer s d with
    | none => none
    | some r => movePlayers r.2 ds

/-- `Sokoban::resetLevel()`. -/
def resetLevel (s : Sokoban) : Sokoban :=
  { s with
    playerPos := s.initialPlayerPos
    cratePositions := s.initialCratePositions
    tiles := s.initialTiles
    currentPlayerTexture := Texture.playerTextureDown }

/-! ## Reading and writing a level -/

/-- The part of a `std::istream` the extraction operator depends on: the characters
not yet consumed and whether `failbit` is set. -/
structure IStream where
  buf : List Char
  failed : Bool
  deriving DecidableEq, Repr

/-- The white space skipped by formatted extraction (`std::isspace`, "C" locale). -/
def isspace (c : Char) : Bool :=
  c == ' ' || c == '\t' || c == '\n' || c == '\x0b' || c == '\x0c' || c == '\r'

/-- The extraction `is >> tile` for a `char`: white space is skipped and one character
is consumed; at the end of input, or on a stream that already failed, `failbit` is
set and nothing is stored. -/
def IStream.extractChar (is : IStream) : IStream × Option Char :=
  if is.failed then
    (is, none)
  else
    match is.buf.dropWhile isspace with
    | [] => ({ buf := [], failed := true }, none)
    | c :: rest => ({ buf := rest, failed := false }, some c)

/-- The call `v.resize(n, value)` of `std::vector`. -/
def resize {α : Type} (v : List α) (n : Nat) (value : α) : List α :=
  v.take n ++ List.replicate (n - v.length) value

/-- The assignment `tiles[i][j] = tile`; `none` when a subscript is out of range. -/
def assignTile (tiles : List (List Char)) (i j : Nat) (tile : Char) :
    Option (List (List Char)) :=
  match tiles[i]? with
  | none => none
  | some row => if j < row.length then some (tiles.set i (row.set j tile)) else none

/-- The objects the loops of `operator>>` work on: the stream, the board and the
three locals holding the initial layout. -/
structure ReadState where
  is : IStream
  board : Sokoban
  initialTilesTemp : List (List Char)
  initialCratePositionsTemp : List Vector2u
  initialPlayerPosTemp : Vector2u
  deriving DecidableEq, Repr

/-- The body of the inner loop of `operator>>` for the cell in row `i`, column `j`.
The local `tile` is not initialised: when the extraction stores nothing its value is
indeterminate, given here by `indeterminate i j`. -/
def readCell (indeterminate : Nat → Nat → Char) (i j : Nat) (st : ReadState) :
    Option ReadState :=
  let r := st.is.extractChar
  let tile : Char := r.2.getD (indeterminate i j)
  match assignTile st.initialTilesTemp i j tile with
  | none => none
  | some initialTilesTemp =>
    match assignTile st.board.tiles i j tile with
    | none => none
    | some tiles =>
      let st1 : ReadState :=
        { st with
          is := r.1
          initialTilesTemp := initialTilesTemp
          board := { st.board with tiles := tiles } }
      if tile = '@' then
        some { st1 with
          initialPlayerPosTemp := ⟨j, i⟩
          board := { st1.board with playerPos := ⟨j, i⟩ } }
      else if tile = 'A' then
        some { st1 with
          initialCratePositionsTemp := st1.initialCratePositionsTemp ++ [⟨j, i⟩]
          board := { st1.board with cratePositions := st1.board.cratePositions ++ [⟨j, i⟩] } }
      else if tile = 'a' then
        some { st1 with
          board := { st1.board with targetPositions := st1.board.targetPositions ++ [⟨j, i⟩] } }
      else if tile = '1' then
        some { st1 with
          initialCratePositionsTemp := st1.initialCratePositionsTemp ++ [⟨j, i⟩]
          board :=
            { st1.board with
              cratePositions := st1.board.cratePositions ++ [⟨j, i⟩]
              targetPositions := st1.board.targetPositions ++ [⟨j, i⟩] } }
      else
        some st1

/-- The loop `for (unsigned int k = lo; k < lo + n; k++) body(k)`. -/
def forLoop {σ : Type} (body : Nat → σ → Option σ) : Nat → Nat → σ → Option σ
  | 0, _, st => some st
  | n + 1, k, st =>
    match body k st with
    | none => none
    | some st1 => forLoop body n (k + 1) st1

/-- The two nested loops of `operator>>`. -/
def readCells (indeterminate : Nat → Nat → Char) (rowCount colCount : Nat)
    (st : ReadState) : Option ReadState :=
  forLoop (fun i st1 => forLoop (fun j st2 => readCell indeterminate i j st2) colCount 0 st1)
    rowCount 0 st

/-- The level reader `operator>>(std::istream&, Sokoban&)`, after the header extraction
`is >> rowCount >> colCount` (library code) has stored `rowCount` and `colCount`:
the stream and the board afterwards; `none` when a subscript is out of range. -/
def operatorExtract (indeterminate : Nat → Nat → Char) (rowCount colCount : Nat)
    (is : IStream) (board : Sokoban) : Option (IStream × Sokoban) :=
  let st0 : ReadState :=
    { is := is
      board := { board with tiles := resize board.tiles rowCount (List.replicate colCount '\x00') }
      initialTilesTemp := List.replicate rowCount (List.replicate colCount '\x00')
      initialCratePositionsTemp := []
      initialPlayerPosTemp := ⟨0, 0⟩ }
  match readCells indeterminate rowCount colCount st0 with
  | none => none
  | some st =>
    some (st.is,
      { st.board with
        initialTiles := st.initialTilesTemp
        initialPlayerPos := st.initialPlayerPosTemp
        initialCratePositions := st.initialCratePositionsTemp })

/-- The level writer `operator<<(std::ostream&, const Sokoban&)`: the characters
written; `none` when `board.tiles[0]` is out of range. -/
def operatorInsert (board : Sokoban) : Option (List Char) :=
  match board.tiles with
  | [] => none
  | row0 :: _ =>
    some (Nat.toDigits 10 board.tiles.length ++ [' '] ++ Nat.toDigits 10 row0.length ++ ['\n'] ++
      board.tiles.flatMap (fun row => row ++ ['\n']))

/-! ## Vocabulary of the statements -/

/-- The position `p + delta(d)` as the source computes it, in `unsigned int`. -/
def Vector2u.shift (p : Vector2u) (d : Direction) : Vector2u :=
  ⟨addUnsigned p.x d.dx, addUnsigned p.y d.dy⟩

/-- The board `s` with the sprite turned towards `d` and nothing else changed. -/
def face (s : Sokoban) (d : Direction) : Sokoban :=
  { s with currentPlayerTexture := d.texture }

/-- The predicate "this crate is at position `p`" used by the two searches. -/
def atPos (p : Vector2u) : Vector2u → Bool :=
  fun crate => crate.x == p.x && crate.y == p.y

/-- The number of rows of the grid. -/
def rows (s : Sokoban) : Nat := s.tiles.length

/-- The number of columns of the first row of the grid (`0` for an empty grid). -/
def cols (s : Sokoban) : Nat :=
  match s.tiles with
  | [] => 0
  | row :: _ => row.length

/-- Every row of the grid is as long as the first one. -/
def Rectangular (s : Sokoban) : Prop := ∀ row ∈ s.tiles, row.length = cols s

/-- The cell with integer coordinates `(x, y)` lies inside the grid: `0 <= x < width()`
and `0 <= y < height()`, the `int` results being converted to `unsigned int` as in
every comparison the source makes between them and a coordinate. -/
def InGrid (s : Sokoban) (x y : Int) : Prop :=
  0 ≤ x ∧ x < (toUnsigned (width s) : Int) ∧ 0 ≤ y ∧ y < (toUnsigned (height s) : Int)

/-- The cell `(x, y)` holds the wall character. -/
def WallAt (s : Sokoban) (x y : Int) : Prop :=
  tileAt s.tiles y.toNat x.toNat = some '#'

/-- Some crate stands on the cell `(x, y)`. -/
def CrateAt (s : Sokoban) (x y : Int) : Prop :=
  ∃ c ∈ s.cratePositions, (c.x : Int) = x ∧ (c.y : Int) = y

/-- The six ways through `movePlayer` that return, each with the checks passed on the
way and the pair returned. -/
inductive MoveCase (s : Sokoban) (d : Direction) : Bool × Sokoban → Prop where
  | outside :
      ¬ ((s.playerPos.shift d).x < toUnsigned (width s) ∧
          (s.playerPos.shift d).y < toUnsigned (height s)) →
      MoveCase s d (false, face s d)
  | wall :
      (s.playerPos.shift d).x < toUnsigned (width s) →
      (s.playerPos.shift d).y < toUnsigned (height s) →
      tileAt s.tiles (s.playerPos.shift d).y (s.playerPos.shift d).x = some '#' →
      MoveCase s d (false, face s d)
  | walk (t : Char) :
      (s.playerPos.shift d).x < toUnsigned (width s) →
      (s.playerPos.shift d).y < toUnsigned (height s) →
      tileAt s.tiles (s.playerPos.shift d).y (s.playerPos.shift d).x = some t → t ≠ '#' →
      findIf (atPos (s.playerPos.shift d)) s.cratePositions = none →
      MoveCase s d (true, { face s d with playerPos := s.playerPos.shift d })
  | crateOutside (t : Char) (it : Nat) (crate : Vector2u) :
      (s.playerPos.shift d).x < toUnsigned (width s) →
      (s.playerPos.shift d).y < toUnsigned (height s) →
      tileAt s.tiles (s.playerPos.shift d).y (s.playerPos.shift d).x = some t → t ≠ '#' →
      findIf (atPos (s.playerPos.shift d)) s.cratePositions = some it →
      s.cratePositions[it]? = some crate →
      ¬ ((crate.shift d).x < toUnsigned (width s) ∧ (crate.shift d).y < toUnsigned (height s)) →
      MoveCase s d (false, face s d)
  | crateBlocked (t : Char) (it : Nat) (crate : Vector2u) (u : Char) :
      (s.playerPos.shift d).x < toUnsigned (width s) →
      (s.playerPos.shift d).y < toUnsigned (height s) →
      tileAt s.tiles (s.playerPos.shift d).y (s.playerPos.shift d).x = some t → t ≠ '#' →
      findIf (atPos (s.playerPos.shift d)) s.cratePositions = some it →
      s.cratePositions[it]? = some crate →
      (crate.shift d).x < toUnsigned (width s) → (crate.shift d).y < toUnsigned (height s) →
      tileAt s.tiles (crate.shift d).y (crate.shift d).x = some u →
      (u = '#' ∨ crateAtPosition s (crate.shift d).x (crate.shift d).y = true) →
      MoveCase s d (false, face s d)
  | push (t : Char) (it : Nat) (crate : Vector2u) (u : Char) :
      (s.playerPos.shift d).x < toUnsigned (width s) →
      (s.playerPos.shift d).y < toUnsigned (height s) →
      tileAt s.tiles (s.playerPos.shift d).y (s.playerPos.shift d).x = some t → t ≠ '#' →
      findIf (atPos (s.playerPos.shift d)) s.cratePositions = some it →
      s.cratePositions[it]? = some crate →
      (crate.shift d).x < toUnsigned (width s) → (crate.shift d).y < toUnsigned (height s) →
      tileAt s.tiles (crate.shift d).y (crate.shift d).x = some u → u ≠ '#' →
      crateAtPosition s (crate.shift d).x (crate.shift d).y = false →
      MoveCase s d
        (true, { face s d with
                  cratePositions := s.cratePositions.set it (crate.shift d)
                  playerPos := s.playerPos.shift d })

/-- The position `p` is inside the grid and on a cell that is not a wall. -/
def OnFloor (s : Sokoban) (p : Vector2u) : Prop :=
  InGrid s (p.x : Int) (p.y : Int) ∧ ¬ WallAt s (p.x : Int) (p.y : Int)

instance (s : Sokoban) : Decidable (Rectangular s) := by
  unfold Rectangular
  infer_instance

instance (s : Sokoban) (x y : Int) : Decidable (InGrid s x y) := by
  unfold InGrid
  infer_instance

instance (s : Sokoban) (x y : Int) : Decidable (WallAt s x y) := by
  unfold WallAt
  infer_instance

instance (s : Sokoban) (x y : Int) : Decidable (CrateAt s x y) := by
  unfold CrateAt
  infer_instance

instance (s : Sokoban) (p : Vector2u) : Decidable (OnFloor s p) := by
  unfold OnFloor
  infer_instance

/-! ## Vocabulary of the statements about levels -/

/-- The non-blank characters of a text, in order. -/
def tokens (buf : List Char) : List Char :=
  buf.filter (fun c => !isspace c)

/-- The characters the stream can still deliver to `is >> tile`. -/
def IStream.pending (is : IStream) : List Char :=
  if is.failed then [] else tokens is.buf

/-- The character of the cell in row `i`, column `j` of a level with `colCount` columns
read from `is`: the non-blank character number `i * colCount + j`, and the
indeterminate value of the iteration when the text is too short. -/
def cellChar (indeterminate : Nat → Nat → Char) (is : IStream) (colCount i j : Nat) : Char :=
  (is.pending[i * colCount + j]?).getD (indeterminate i j)

/-- The characters that put a crate on their cell. -/
def isCrateChar (c : Char) : Bool := c == 'A' || c == '1'

/-- The characters that put a target on their cell. -/
def isTargetChar (c : Char) : Bool := c == 'a' || c == '1'

/-- The positions (column, row), from left to right, of the first `n` cells of row `i`
whose character satisfies `p`. -/
def rowPositions (p : Char → Bool) (level : Nat → Nat → Char) (i n : Nat) : List Vector2u :=
  (List.range n).filterMap (fun j => if p (level i j) then some (⟨j, i⟩ : Vector2u) else none)

/-- The positions (column, row), in row-major order, of the cells of the first `m` rows
whose character satisfies `p`. -/
def gridPositions (p : Char → Bool) (level : Nat → Nat → Char) (colCount m : Nat) :
    List Vector2u :=
  (List.range m).flatMap (fun i => rowPositions p level i colCount)

/-- The cell `(i1, j1)` comes before the cell `(i, j)` in row-major order. -/
def Before (i1 j1 i j : Nat) : Prop := i1 < i ∨ (i1 = i ∧ j1 < j)

/-- The locals and the board of `operator>>` when the loops are about to read the cell
in row `i`, column `j` of a level with `rowCount` rows and `colCount` columns, the
board having been freshly constructed and the stream being `is0` at the first cell. -/
structure ReadInv (indeterminate : Nat → Nat → Char) (is0 : IStream) (rowCount colCount : Nat)
    (i j : Nat) (st : ReadState) : Prop where
  rows_eq : st.board.tiles.length = rowCount
  cols_eq : ∀ row ∈ st.board.tiles, row.length = colCount
  temp_tiles : st.initialTilesTemp = st.board.tiles
  temp_crates : st.initialCratePositionsTemp = st.board.cratePositions
  temp_player : st.initialPlayerPosTemp = st.board.playerPos
  texture : st.board.currentPlayerTexture = Texture.playerTextureDown
  pending : st.is.pending = is0.pending.drop (i * colCount + j)
  failed : st.is.failed = true ↔ (is0.failed = true ∨ is0.pending.length < i * colCount + j)
  tile : ∀ i1 j1, j1 < colCount → Before i1 j1 i j →
    tileAt st.board.tiles i1 j1 = some (cellChar indeterminate is0 colCount i1 j1)
  crates : st.board.cratePositions =
    gridPositions isCrateChar (cellChar indeterminate is0 colCount) colCount i ++
      rowPositions isCrateChar (cellChar indeterminate is0 colCount) i j
  targets : st.board.targetPositions =
    gridPositions isTargetChar (cellChar indeterminate is0 colCount) colCount i ++
      rowPositions isTargetChar (cellChar indeterminate is0 colCount) i j
  player :
    (st.board.playerPos = ⟨0, 0⟩ ∧
      ∀ i1 j1, j1 < colCount → Before i1 j1 i j →
        cellChar indeterminate is0 colCount i1 j1 ≠ '@') ∨
    (∃ i1 j1, j1 < colCount ∧ Before i1 j1 i j ∧
      cellChar indeterminate is0 colCount i1 j1 = '@' ∧ st.board.playerPos = ⟨j1, i1⟩ ∧
      ∀ i2 j2, j2 < colCount → Before i2 j2 i j → Before i1 j1 i2 j2 →
        cellChar indeterminate is0 colCount i2 j2 ≠ '@')

/-- What `operator>>` leaves behind when it has read a level with `rowCount` rows and
`colCount` columns from the stream `is0` into a freshly constructed board: the stream
`is1` and the board `b`. -/
structure LoadedFrom (indeterminate : Nat → Nat → Char) (is0 : IStream)
    (rowCount colCount : Nat) (is1 : IStream) (b : Sokoban) : Prop where
  rows_eq : b.tiles.length = rowCount
  cols_eq : ∀ row ∈ b.tiles, row.length = colCount
  init_tiles : b.initialTiles = b.tiles
  init_crates : b.initialCratePositions = b.cratePositions
  init_player : b.initialPlayerPos = b.playerPos
  texture : b.currentPlayerTexture = Texture.playerTextureDown
  pending : is1.pending = is0.pending.drop (rowCount * colCount)
  failed : is1.failed = true ↔ (is0.failed = true ∨ is0.pending.length < rowCount * colCount)
  tile : ∀ i j, i < rowCount → j < colCount →
    tileAt b.tiles i j = some (cellChar indeterminate is0 colCount i j)
  crates : b.cratePositions =
    gridPositions isCrateChar (cellChar indeterminate is0 colCount) colCount rowCount
  targets : b.targetPositions =
    gridPositions isTargetChar (cellChar indeterminate is0 colCount) colCount rowCount
  player :
    (b.playerPos = ⟨0, 0⟩ ∧
      ∀ i j, i < rowCount → j < colCount → cellChar indeterminate is0 colCount i j ≠ '@') ∨
    (∃ i j, i < rowCount ∧ j < colCount ∧
      cellChar indeterminate is0 colCount i j = '@' ∧ b.playerPos = ⟨j, i⟩ ∧
      ∀ i2 j2, i2 < rowCount → j2 < colCount → Before i j i2 j2 →
        cellChar indeterminate is0 colCount i2 j2 ≠ '@')

/-! ## Boards used as instances -/

/-- The level `3 3 / ### / #@. / ###` of the end-to-end scenario, as loaded. -/
def closedBox : Sokoban :=
  { Sokoban.new with
    playerPos := ⟨1, 1⟩
    tiles := [['#', '#', '#'], ['#', '@', '.'], ['#', '#', '#']] }

/-- The blocked-push scenario: player at (1,1), crate at (2,1), wall at (3,1). -/
def blockedPush : Sokoban :=
  { Sokoban.new with
    playerPos := ⟨1, 1⟩
    cratePositions := [⟨2, 1⟩]
    tiles := [['#', '#', '#', '#'], ['#', '@', 'A', '#'], ['#', '#', '#', '#']] }

/-- The crate-push scenario: player at (1,1), crate at (2,1), target at (3,1). -/
def pushOntoTarget : Sokoban :=
  { Sokoban.new with
    playerPos := ⟨1, 1⟩
    cratePositions := [⟨2, 1⟩]
    targetPositions := [⟨3, 1⟩]
    tiles := [['#', '#', '#', '#', '#'], ['#', '@', 'A', 'a', '#'], ['#', '#', '#', '#', '#']] }

/-- One choice of indeterminate values: the null character in every iteration. -/
def nullFill : Nat → Nat → Char := fun _ _ => '\x00'

/-- The stream holding the cells of the level `3 3 / ### / #@. / ###`. -/
def closedBoxText : IStream := ⟨"###\n#@.\n###\n".toList, false⟩

/-- The stream holding the cells of a level `3 3` that has no player marker. -/
def noPlayerText : IStream := ⟨"###\n#..\n###\n".toList, false⟩

/-- The stream holding the cells of a level `3 5` with a crate, a target and a crate on
a target. -/
def mixedText : IStream := ⟨"#####\n#@A1a\n#####\n".toList, false⟩

/-- The stream holding a single row: the player marker followed by `n` floor cells. -/
def wideRow (n : Nat) : IStream := ⟨'@' :: List.replicate n '.', false⟩

/-! ## Machine arithmetic and searches -/

theorem toUnsigned_toInt (n : Nat) : toUnsigned (toInt n) = n % 2 ^ 32 := by
  unfold toUnsigned toInt
  split <;> omega

theorem findIf_eq_none {α : Type} (p : α → Bool) (l : List α) :
    findIf p l = none ↔ ∀ a ∈ l, p a = false := by
  induction l with
  | nil => simp [findIf]
  | cons a l ih =>
    by_cases h : p a <;> simp [findIf, h, ih]

theorem findIf_eq_some {α : Type} (p : α → Bool) (l : List α) (i : Nat) :
    findIf p l = some i ↔
      ∃ a, l[i]? = some a ∧ p a = true ∧ ∀ j, j < i → ∀ b, l[j]? = some b → p b = false := by
  induction l generalizing i with
  | nil => simp [findIf]
  | cons a l ih =>
    by_cases h : p a
    · simp only [findIf, h, if_true, Option.some.injEq]
      constructor
      · intro hi
        subst hi
        exact ⟨a, by simp, h, by intro j hj; omega⟩
      · rintro ⟨b, hb, hpb, hmin⟩
        cases i with
        | zero => rfl
        | succ i =>
          have := hmin 0 (by omega) a (by simp)
          simp [h] at this
    · simp only [findIf, h, Bool.false_eq_true, if_false, Option.map_eq_some', ih]
      constructor
      · rintro ⟨k, ⟨b, hb, hpb, hmin⟩, rfl⟩
        refine ⟨b, by simpa using hb, hpb, ?_⟩
        intro j hj c hc
        cases j with
        | zero => simp at hc; subst hc; simpa using h
        | succ j => exact hmin j (by omega) c (by simpa using hc)
      · rintro ⟨b, hb, hpb, hmin⟩
        cases i with
        | zero => simp at hb; subst hb; exact absurd hpb h
        | succ i =>
          refine ⟨i, ⟨b, by simpa using hb, hpb, ?_⟩, rfl⟩
          intro j hj c hc
          exact hmin (j+1) (by omega) c (by simpa using hc)

/-! ## The paths through `movePlayer` -/

theorem width_texture (s : Sokoban) (t : Texture) :
    width { s with currentPlayerTexture := t } = width s := rfl

theorem height_texture (s : Sokoban) (t : Texture) :
    height { s with currentPlayerTexture := t } = height s := rfl

theorem movePlayer_cases {s : Sokoban} {d : Direction} {r : Bool × Sokoban}
    (h : movePlayer s d = some r) : MoveCase s d r := by
  unfold movePlayer at h
  simp only [width_texture, height_texture, ge_iff_le, Nat.not_lt_zero, or_false] at h
  split at h
  · rename_i hout
    cases h
    exact MoveCase.outside (by
      change ¬ ((addUnsigned s.playerPos.x d.dx < toUnsigned (width s)) ∧
        (addUnsigned s.playerPos.y d.dy < toUnsigned (height s)))
      omega)
  · rename_i hin
    simp only [not_or, not_le] at hin
    have hx : (s.playerPos.shift d).x < toUnsigned (width s) := hin.1
    have hy : (s.playerPos.shift d).y < toUnsigned (height s) := hin.2
    split at h
    · cases h
    · rename_i tile htile
      split at h
      · rename_i hw
        cases h
        subst hw
        exact MoveCase.wall hx hy htile
      · rename_i hnw
        split at h
        · rename_i it hit
          split at h
          · cases h
          · rename_i crate hcrate
            split at h
            · rename_i hout
              cases h
              refine MoveCase.crateOutside tile it crate hx hy htile hnw hit hcrate ?_
              change ¬ ((addUnsigned crate.x d.dx < toUnsigned (width s)) ∧
                (addUnsigned crate.y d.dy < toUnsigned (height s)))
              omega
            · rename_i hin2
              simp only [not_or, not_le] at hin2
              split at h
              · cases h
              · rename_i u hu
                split at h
                · rename_i hb
                  cases h
                  exact MoveCase.crateBlocked tile it crate u hx hy htile hnw hit hcrate
                    hin2.1 hin2.2 hu hb
                · rename_i hb
                  cases h
                  simp only [not_or, Bool.not_eq_true] at hb
                  exact MoveCase.push tile it crate u hx hy htile hnw hit hcrate
                    hin2.1 hin2.2 hu hb.1 hb.2
        · rename_i hit
          cases h
          exact MoveCase.walk tile hx hy htile hnw hit

/-! ## Grid geometry -/

theorem toUnsigned_width (s : Sokoban) : toUnsigned (width s) = cols s % 2 ^ 32 := by
  unfold width cols
  cases s.tiles with
  | nil => simp [toUnsigned]
  | cons row l => exact toUnsigned_toInt _

theorem toUnsigned_height (s : Sokoban) : toUnsigned (height s) = rows s % 2 ^ 32 :=
  toUnsigned_toInt _

theorem tileAt_isSome {s : Sokoban} (hrect : Rectangular s) {y x : Nat}
    (hy : y < rows s) (hx : x < cols s) : ∃ t, tileAt s.tiles y x = some t := by
  unfold tileAt
  have hy' : y < s.tiles.length := hy
  have hrow : s.tiles[y]? = some s.tiles[y] := List.getElem?_eq_getElem hy'
  rw [hrow]
  have hlen : (s.tiles[y]).length = cols s := hrect _ (List.getElem_mem _)
  exact ⟨(s.tiles[y])[x], List.getElem?_eq_getElem (by omega)⟩

theorem tileAt_isSome_of_lt {s : Sokoban} (hrect : Rectangular s) {y x : Nat}
    (hx : x < toUnsigned (width s)) (hy : y < toUnsigned (height s)) :
    ∃ t, tileAt s.tiles y x = some t := by
  rw [toUnsigned_width] at hx
  rw [toUnsigned_height] at hy
  have h1 : cols s % 2 ^ 32 ≤ cols s := Nat.mod_le _ _
  have h2 : rows s % 2 ^ 32 ≤ rows s := Nat.mod_le _ _
  exact tileAt_isSome hrect (by omega) (by omega)

theorem dx_range (d : Direction) : -1 ≤ d.dx ∧ d.dx ≤ 1 := by
  cases d <;> simp [Direction.dx]

theorem dy_range (d : Direction) : -1 ≤ d.dy ∧ d.dy ≤ 1 := by
  cases d <;> simp [Direction.dy]

theorem toUnsigned_lt (z : Int) : toUnsigned z < 2 ^ 32 := by
  unfold toUnsigned
  omega

theorem inGrid_iff (s : Sokoban) (hc : cols s < 2 ^ 32) (hr : rows s < 2 ^ 32) (x y : Int) :
    InGrid s x y ↔ (0 ≤ x ∧ x < (cols s : Int) ∧ 0 ≤ y ∧ y < (rows s : Int)) := by
  unfold InGrid
  rw [toUnsigned_width, toUnsigned_height, Nat.mod_eq_of_lt hc, Nat.mod_eq_of_lt hr]

theorem shift_bounds_iff (s : Sokoban) (q : Vector2u) (d : Direction)
    (hqx : q.x < toUnsigned (width s)) (hqy : q.y < toUnsigned (height s)) :
    ((q.shift d).x < toUnsigned (width s) ∧ (q.shift d).y < toUnsigned (height s)) ↔
      InGrid s ((q.x : Int) + d.dx) ((q.y : Int) + d.dy) := by
  have h1 := dx_range d
  have h2 := dy_range d
  have h3 := toUnsigned_lt (width s)
  have h4 := toUnsigned_lt (height s)
  unfold InGrid Vector2u.shift addUnsigned
  simp only []
  omega

theorem shift_coords (s : Sokoban) (q : Vector2u) (d : Direction)
    (h : InGrid s ((q.x : Int) + d.dx) ((q.y : Int) + d.dy)) :
    (((q.shift d).x : Nat) : Int) = (q.x : Int) + d.dx ∧
      (((q.shift d).y : Nat) : Int) = (q.y : Int) + d.dy := by
  have h3 := toUnsigned_lt (width s)
  have h4 := toUnsigned_lt (height s)
  unfold InGrid at h
  unfold Vector2u.shift addUnsigned
  simp only []
  omega

/-! ## Moving: the contract of `movePlayer` -/

theorem movePlayer_total (s : Sokoban) (d : Direction) (hrect : Rectangular s) :
    ∃ r, movePlayer s d = some r := by
  unfold movePlayer
  simp only [width_texture, height_texture, ge_iff_le, Nat.not_lt_zero, or_false]
  split
  · exact ⟨_, rfl⟩
  · rename_i hin
    simp only [not_or, not_le] at hin
    obtain ⟨t, ht⟩ := tileAt_isSome_of_lt hrect hin.1 hin.2
    simp only [ht]
    split
    · exact ⟨_, rfl⟩
    · split
      · rename_i it hit
        obtain ⟨crate, hcrate, -, -⟩ := (findIf_eq_some _ _ _).1 hit
        simp only [hcrate]
        split
        · exact ⟨_, rfl⟩
        · rename_i hin2
          simp only [not_or, not_le] at hin2
          obtain ⟨u, hu⟩ := tileAt_isSome_of_lt hrect hin2.1 hin2.2
          simp only [hu]
          split <;> exact ⟨_, rfl⟩
      · exact ⟨_, rfl⟩

theorem findIf_atPos_some {l : List Vector2u} {p : Vector2u} {it : Nat} {crate : Vector2u}
    (h : findIf (atPos p) l = some it) (hc : l[it]? = some crate) :
    crate = p ∧ crate ∈ l := by
  obtain ⟨a, ha, hpa, -⟩ := (findIf_eq_some _ _ _).1 h
  rw [hc] at ha
  cases ha
  refine ⟨?_, List.getElem?_mem hc⟩
  simp only [atPos, Bool.and_eq_true, beq_iff_eq] at hpa
  cases crate; cases p
  simp only [Vector2u.mk.injEq]
  exact hpa

theorem findIf_atPos_none {l : List Vector2u} {p : Vector2u} :
    findIf (atPos p) l = none ↔ p ∉ l := by
  rw [findIf_eq_none]
  constructor
  · intro h hp
    have := h p hp
    simp [atPos] at this
  · intro h a ha
    by_contra hne
    simp only [atPos, Bool.not_eq_false, Bool.and_eq_true, beq_iff_eq] at hne
    apply h
    have : a = p := by
      cases a; cases p
      simp only [Vector2u.mk.injEq]
      exact hne
    exact this ▸ ha

theorem crateAtPosition_false {s : Sokoban} {p : Vector2u} :
    crateAtPosition s p.x p.y = false ↔ p ∉ s.cratePositions := by
  rw [← findIf_atPos_none]
  unfold crateAtPosition
  change (findIf (atPos p) s.cratePositions).isSome = false ↔ _
  cases findIf (atPos p) s.cratePositions <;> simp

theorem crateAt_iff (s : Sokoban) (p : Vector2u) :
    CrateAt s (p.x : Int) (p.y : Int) ↔ p ∈ s.cratePositions := by
  unfold CrateAt
  constructor
  · rintro ⟨c, hc, hx, hy⟩
    have : c = p := by
      cases c; cases p
      simp only [Vector2u.mk.injEq]
      simp only at hx hy
      omega
    exact this ▸ hc
  · intro h
    exact ⟨p, h, rfl, rfl⟩


theorem wallAt_shift (s : Sokoban) (q : Vector2u) (d : Direction)
    (h : InGrid s ((q.x : Int) + d.dx) ((q.y : Int) + d.dy)) :
    WallAt s ((q.x : Int) + d.dx) ((q.y : Int) + d.dy) ↔
      tileAt s.tiles (q.shift d).y (q.shift d).x = some '#' := by
  obtain ⟨hx, hy⟩ := shift_coords s q d h
  unfold WallAt
  rw [← hx, ← hy, Int.toNat_ofNat, Int.toNat_ofNat]

theorem crateAt_shift (s : Sokoban) (q : Vector2u) (d : Direction)
    (h : InGrid s ((q.x : Int) + d.dx) ((q.y : Int) + d.dy)) :
    CrateAt s ((q.x : Int) + d.dx) ((q.y : Int) + d.dy) ↔ q.shift d ∈ s.cratePositions := by
  obtain ⟨hx, hy⟩ := shift_coords s q d h
  rw [← hx, ← hy]
  exact crateAt_iff s (q.shift d)

theorem set_eq_map_of_nodup {l : List Vector2u} (hnd : l.Nodup) {it : Nat} {crate v : Vector2u}
    (h : l[it]? = some crate) :
    l.set it v = l.map (fun c => if c = crate then v else c) := by
  induction l generalizing it with
  | nil => simp
  | cons a l ih =>
    rw [List.nodup_cons] at hnd
    cases it with
    | zero =>
      simp only [List.getElem?_cons_zero, Option.some.injEq] at h
      subst h
      simp only [List.set_cons_zero, List.map_cons, if_true, List.cons.injEq, true_and]
      have : l.map (fun c => if c = a then v else c) = l.map id := by
        apply List.map_congr_left
        intro c hc
        have : c ≠ a := fun e => hnd.1 (e ▸ hc)
        simp [this]
      rw [this, List.map_id]
    | succ it =>
      simp only [List.getElem?_cons_succ] at h
      have hne : a ≠ crate := fun e => hnd.1 (e ▸ List.getElem?_mem h)
      simp only [List.set_cons_succ, List.map_cons, hne, if_false, ih hnd.2 h]

theorem map_ite_eq_self {l : List Vector2u} {p : Vector2u} (f : Vector2u → Vector2u)
    (h : p ∉ l) : l.map (fun c => if c = p then f c else c) = l := by
  have : l.map (fun c => if c = p then f c else c) = l.map id := by
    apply List.map_congr_left
    intro c hc
    have : c ≠ p := fun e => h (e ▸ hc)
    simp [this]
  rw [this, List.map_id]

/-- Claim C2. When `movePlayer d` returns `false`, the player position and the crate list
are what they were before the call; the board differs at most in the facing sprite. -/
theorem movePlayer_false_unchanged (s : Sokoban) (d : Direction) (s' : Sokoban)
    (h : movePlayer s d = some (false, s')) :
    s'.playerPos = s.playerPos ∧ s'.cratePositions = s.cratePositions ∧ s' = face s d := by
  have hc := movePlayer_cases h
  cases hc <;> exact ⟨rfl, rfl, rfl⟩

/-- Claim C2, an instance: the blocked-push scenario; `movePlayer Right` returns `false`
and neither the player nor the crate moves. -/
theorem movePlayer_false_unchanged_witness :
    movePlayer blockedPush Direction.Right = some (false, face blockedPush Direction.Right) ∧
      (face blockedPush Direction.Right).playerPos = ⟨1, 1⟩ ∧
      (face blockedPush Direction.Right).cratePositions = [⟨2, 1⟩] ∧
      tileAt blockedPush.tiles 1 3 = some '#' :=
  have h : movePlayer blockedPush Direction.Right =
      some (false, face blockedPush Direction.Right) := by decide
  have hu := movePlayer_false_unchanged blockedPush Direction.Right _ h
  ⟨h, hu.1, hu.2.1, by decide⟩

/-- Claim C4. `isWon` is `true` exactly when every crate is on a target, if there are at
most as many crates as targets, and exactly when every target carries a crate otherwise.
So it is `true` for two crates on two of three targets, for three crates covering both of
two targets, and whenever there is no crate. -/
theorem isWon_iff :
    (∀ s : Sokoban, isWon s = true ↔
      if s.cratePositions.length ≤ s.targetPositions.length then
        ∀ c ∈ s.cratePositions, c ∈ s.targetPositions
      else
        ∀ t ∈ s.targetPositions, t ∈ s.cratePositions) ∧
    isWon { Sokoban.new with
      cratePositions := [⟨1, 1⟩, ⟨2, 1⟩]
      targetPositions := [⟨1, 1⟩, ⟨2, 1⟩, ⟨3, 1⟩] } = true ∧
    isWon { Sokoban.new with
      cratePositions := [⟨1, 1⟩, ⟨2, 1⟩, ⟨3, 2⟩]
      targetPositions := [⟨1, 1⟩, ⟨2, 1⟩] } = true ∧
    (∀ s : Sokoban, s.cratePositions = [] → isWon s = true) := by
  refine ⟨?_, by decide, by decide, ?_⟩
  · intro s
    unfold isWon
    simp only []
    split
    · simp only [List.all_eq_true, List.any_eq_true, beq_iff_eq]
      constructor
      · intro h c hc
        obtain ⟨t, ht, e⟩ := h c hc
        exact e ▸ ht
      · intro h c hc
        exact ⟨c, h c hc, rfl⟩
    · simp only [List.all_eq_true, List.any_eq_true, beq_iff_eq]
      constructor
      · intro h t ht
        obtain ⟨c, hc, e⟩ := h t ht
        exact e ▸ hc
      · intro h t ht
        exact ⟨t, h t ht, rfl⟩
  · intro s hs
    unfold isWon
    simp [hs]

/-! ## Reading a level: the stream, the cells, the loops -/

theorem forLoop_inv {σ : Type} (body : Nat → σ → Option σ) (P : Nat → σ → Prop)
    (n lo : Nat) (st : σ) (h0 : P lo st)
    (hstep : ∀ k st1, lo ≤ k → k < lo + n → P k st1 → ∃ st2, body k st1 = some st2 ∧ P (k + 1) st2) :
    ∃ st2, forLoop body n lo st = some st2 ∧ P (lo + n) st2 := by
  induction n generalizing lo st with
  | zero => exact ⟨st, rfl, h0⟩
  | succ n ih =>
    obtain ⟨st1, hb, hP⟩ := hstep lo st (le_refl _) (by omega) h0
    obtain ⟨st2, hl, hP2⟩ := ih (lo + 1) st1 hP
      (fun k st3 hk1 hk2 hP3 => hstep k st3 (by omega) (by omega) hP3)
    refine ⟨st2, ?_, ?_⟩
    · simp only [forLoop, hb, hl]
    · have : lo + (n + 1) = lo + 1 + n := by omega
      rw [this]
      exact hP2

theorem tokens_dropWhile (buf : List Char) :
    tokens (buf.dropWhile isspace) = tokens buf := by
  induction buf with
  | nil => rfl
  | cons c l ih =>
    by_cases h : isspace c
    · simp only [List.dropWhile_cons, h, if_true, ih]
      simp [tokens, List.filter_cons, h]
    · simp only [List.dropWhile_cons, h, Bool.false_eq_true, if_false]

theorem isspace_head_dropWhile {buf : List Char} {c : Char} {rest : List Char}
    (h : buf.dropWhile isspace = c :: rest) : isspace c = false := by
  have := List.head_dropWhile_not isspace buf (by rw [h]; simp)
  simpa [h] using this

theorem extractChar_snd (is : IStream) : is.extractChar.2 = is.pending.head? := by
  unfold IStream.extractChar IStream.pending
  by_cases hf : is.failed
  · simp [hf]
  · simp only [hf, Bool.false_eq_true, if_false]
    rw [← tokens_dropWhile]
    split
    · rename_i h
      rw [h]; rfl
    · rename_i c rest h
      rw [h]
      have hc := isspace_head_dropWhile h
      simp [tokens, List.filter_cons, hc]

theorem extractChar_pending (is : IStream) : is.extractChar.1.pending = is.pending.tail := by
  unfold IStream.extractChar
  by_cases hf : is.failed
  · simp [hf, IStream.pending]
  · simp only [hf, Bool.false_eq_true, if_false]
    have hp : is.pending = tokens (is.buf.dropWhile isspace) := by
      simp [IStream.pending, hf, tokens_dropWhile]
    split
    · rename_i h
      rw [hp, h]
      simp [IStream.pending, tokens]
    · rename_i c rest h
      rw [hp, h]
      have hc := isspace_head_dropWhile h
      simp [IStream.pending, tokens, List.filter_cons, hc]

theorem extractChar_failed (is : IStream) :
    is.extractChar.1.failed = true ↔ (is.failed = true ∨ is.pending = []) := by
  unfold IStream.extractChar
  by_cases hf : is.failed
  · simp [hf]
  · simp only [hf, Bool.false_eq_true, if_false, false_or]
    have hp : is.pending = tokens (is.buf.dropWhile isspace) := by
      simp [IStream.pending, hf, tokens_dropWhile]
    split
    · rename_i h
      rw [hp, h]
      simp [tokens]
    · rename_i c rest h
      rw [hp, h]
      have hc := isspace_head_dropWhile h
      simp [tokens, List.filter_cons, hc]

theorem assignTile_spec {tiles : List (List Char)} {colCount i j : Nat} (c : Char)
    (hi : i < tiles.length) (hcols : ∀ row ∈ tiles, row.length = colCount) (hj : j < colCount) :
    ∃ t, assignTile tiles i j c = some t ∧ t.length = tiles.length ∧
      (∀ row ∈ t, row.length = colCount) ∧ tileAt t i j = some c ∧
      ∀ i1 j1, (i1 ≠ i ∨ j1 ≠ j) → tileAt t i1 j1 = tileAt tiles i1 j1 := by
  have hrow : tiles[i]? = some tiles[i] := List.getElem?_eq_getElem hi
  have hlen : (tiles[i]).length = colCount := hcols _ (List.getElem_mem _)
  refine ⟨tiles.set i ((tiles[i]).set j c), ?_, ?_, ?_, ?_, ?_⟩
  · unfold assignTile
    rw [hrow]
    simp only [hlen, hj, if_true]
  · simp
  · intro row hmem
    rcases List.mem_or_eq_of_mem_set hmem with h | h
    · exact hcols row h
    · rw [h, List.length_set]; exact hlen
  · unfold tileAt
    rw [List.getElem?_set_self hi]
    simp only []
    exact List.getElem?_set_self (by omega)
  · intro i1 j1 hne
    unfold tileAt
    by_cases h1 : i1 = i
    · subst h1
      have hj1 : j ≠ j1 := by
        rcases hne with h | h
        · exact absurd rfl h
        · exact fun e => h e.symm
      rw [List.getElem?_set_self hi, hrow]
      simp only []
      exact List.getElem?_set_ne hj1
    · rw [List.getElem?_set_ne (fun e => h1 e.symm)]

theorem isCrateChar_eq (c : Char) : isCrateChar c = true ↔ (c = 'A' ∨ c = '1') := by
  simp [isCrateChar]

theorem isTargetChar_eq (c : Char) : isTargetChar c = true ↔ (c = 'a' ∨ c = '1') := by
  simp [isTargetChar]

theorem readCell_fields (indeterminate : Nat → Nat → Char) (i j : Nat) (st : ReadState)
    (tile : Char) (temp tiles : List (List Char))
    (htile : tile = st.is.extractChar.2.getD (indeterminate i j))
    (h1 : assignTile st.initialTilesTemp i j tile = some temp)
    (h2 : assignTile st.board.tiles i j tile = some tiles) :
    ∃ st2, readCell indeterminate i j st = some st2 ∧
      st2.is = st.is.extractChar.1 ∧
      st2.initialTilesTemp = temp ∧
      st2.board.tiles = tiles ∧
      st2.board.currentPlayerTexture = st.board.currentPlayerTexture ∧
      st2.board.cratePositions =
        st.board.cratePositions ++ (if isCrateChar tile then [⟨j, i⟩] else []) ∧
      st2.initialCratePositionsTemp =
        st.initialCratePositionsTemp ++ (if isCrateChar tile then [⟨j, i⟩] else []) ∧
      st2.board.targetPositions =
        st.board.targetPositions ++ (if isTargetChar tile then [⟨j, i⟩] else []) ∧
      st2.board.playerPos = (if tile = '@' then ⟨j, i⟩ else st.board.playerPos) ∧
      st2.initialPlayerPosTemp = (if tile = '@' then ⟨j, i⟩ else st.initialPlayerPosTemp) := by
  unfold readCell
  simp only [← htile, h1, h2]
  by_cases hp : tile = '@'
  · subst hp
    refine ⟨_, by simp only [if_true]; rfl, ?_⟩
    simp [isCrateChar, isTargetChar]
  · by_cases hA : tile = 'A'
    · subst hA
      refine ⟨_, by simp only [if_true]; rfl, ?_⟩
      simp [isCrateChar, isTargetChar]
    · by_cases ha : tile = 'a'
      · subst ha
        refine ⟨_, by simp only [if_true]; rfl, ?_⟩
        simp [isCrateChar, isTargetChar]
      · by_cases h1 : tile = '1'
        · subst h1
          refine ⟨_, by simp only [if_true]; rfl, ?_⟩
          simp [isCrateChar, isTargetChar]
        · refine ⟨_, by simp only [hp, hA, ha, h1, if_false]; rfl, ?_⟩
          simp [isCrateChar, isTargetChar, hp, hA, ha, h1]

theorem rowPositions_succ (p : Char → Bool) (level : Nat → Nat → Char) (i j : Nat) :
    rowPositions p level i (j + 1) =
      rowPositions p level i j ++ (if p (level i j) then [(⟨j, i⟩ : Vector2u)] else []) := by
  unfold rowPositions
  rw [List.range_succ, List.filterMap_append]
  congr 1
  by_cases h : p (level i j) <;> simp [List.filterMap_cons, h]

theorem rowPositions_zero (p : Char → Bool) (level : Nat → Nat → Char) (i : Nat) :
    rowPositions p level i 0 = [] := rfl

theorem gridPositions_succ (p : Char → Bool) (level : Nat → Nat → Char) (colCount i : Nat) :
    gridPositions p level colCount (i + 1) =
      gridPositions p level colCount i ++ rowPositions p level i colCount := by
  unfold gridPositions
  rw [List.range_succ, List.flatMap_append, List.flatMap_singleton]

theorem before_succ (i1 j1 i j : Nat) :
    Before i1 j1 i (j + 1) ↔ (Before i1 j1 i j ∨ (i1 = i ∧ j1 = j)) := by
  unfold Before
  omega

theorem before_next_row (i1 j1 i colCount : Nat) (h : j1 < colCount) :
    Before i1 j1 (i + 1) 0 ↔ Before i1 j1 i colCount := by
  unfold Before
  omega

theorem readCell_step (indeterminate : Nat → Nat → Char) (is0 : IStream)
    (rowCount colCount i j : Nat) (st : ReadState) (hi : i < rowCount) (hj : j < colCount)
    (inv : ReadInv indeterminate is0 rowCount colCount i j st) :
    ∃ st2, readCell indeterminate i j st = some st2 ∧
      ReadInv indeterminate is0 rowCount colCount i (j + 1) st2 := by
  have htile : st.is.extractChar.2.getD (indeterminate i j) =
      cellChar indeterminate is0 colCount i j := by
    rw [extractChar_snd, inv.pending, List.head?_drop]
    rfl
  obtain ⟨t, ht, hlen, hcols, hset, hother⟩ :=
    assignTile_spec (cellChar indeterminate is0 colCount i j)
      (by rw [inv.rows_eq]; exact hi) inv.cols_eq hj
  have ht' : assignTile st.initialTilesTemp i j (cellChar indeterminate is0 colCount i j) =
      some t := by rw [inv.temp_tiles]; exact ht
  obtain ⟨st2, hread, his, htemp, htiles, htex, hcr, hcrt, htg, hpl, hplt⟩ :=
    readCell_fields indeterminate i j st _ t t htile.symm ht' ht
  refine ⟨st2, hread, ?_⟩
  constructor
  · rw [htiles, hlen]; exact inv.rows_eq
  · rw [htiles]; exact hcols
  · rw [htemp, htiles]
  · rw [hcrt, hcr, inv.temp_crates]
  · rw [hplt, hpl, inv.temp_player]
  · rw [htex]; exact inv.texture
  · rw [his, extractChar_pending, inv.pending, List.tail_drop]
    rfl
  · rw [his, extractChar_failed, inv.failed, inv.pending, List.drop_eq_nil_iff]
    have : i * colCount + (j + 1) = i * colCount + j + 1 := rfl
    rw [this]
    constructor
    · rintro ((h | h) | h)
      · exact Or.inl h
      · exact Or.inr (by omega)
      · exact Or.inr (by omega)
    · rintro (h | h)
      · exact Or.inl (Or.inl h)
      · exact Or.inr (by omega)
  · intro i1 j1 hj1 hb
    rw [htiles]
    rcases (before_succ i1 j1 i j).1 hb with h | ⟨h1, h2⟩
    · rw [hother i1 j1 (by unfold Before at h; omega)]
      exact inv.tile i1 j1 hj1 h
    · subst h1; subst h2
      exact hset
  · rw [hcr, inv.crates, rowPositions_succ, List.append_assoc]
  · rw [htg, inv.targets, rowPositions_succ, List.append_assoc]
  · rw [hpl]
    by_cases hat : cellChar indeterminate is0 colCount i j = '@'
    · right
      refine ⟨i, j, hj, (before_succ i j i j).2 (Or.inr ⟨rfl, rfl⟩), hat, by simp [hat], ?_⟩
      intro i2 j2 _ hb2 hb3
      unfold Before at hb2 hb3
      omega
    · simp only [hat, if_false]
      rcases inv.player with ⟨hp0, hnone⟩ | ⟨i1, j1, hj1, hb1, hc1, hp1, hlater⟩
      · left
        refine ⟨hp0, ?_⟩
        intro i1 j1 hj1 hb
        rcases (before_succ i1 j1 i j).1 hb with h | ⟨h1, h2⟩
        · exact hnone i1 j1 hj1 h
        · subst h1; subst h2; exact hat
      · right
        refine ⟨i1, j1, hj1, (before_succ i1 j1 i j).2 (Or.inl hb1), hc1, hp1, ?_⟩
        intro i2 j2 hj2 hb2 hb3
        rcases (before_succ i2 j2 i j).1 hb2 with h | ⟨h1, h2⟩
        · exact hlater i2 j2 hj2 h hb3
        · subst h1; subst h2; exact hat

theorem readInv_next_row (indeterminate : Nat → Nat → Char) (is0 : IStream)
    (rowCount colCount i : Nat) (st : ReadState)
    (inv : ReadInv indeterminate is0 rowCount colCount i colCount st) :
    ReadInv indeterminate is0 rowCount colCount (i + 1) 0 st := by
  have hidx : i * colCount + colCount = (i + 1) * colCount + 0 := by
    rw [Nat.succ_mul]; rfl
  constructor
  · exact inv.rows_eq
  · exact inv.cols_eq
  · exact inv.temp_tiles
  · exact inv.temp_crates
  · exact inv.temp_player
  · exact inv.texture
  · rw [← hidx]; exact inv.pending
  · rw [← hidx]; exact inv.failed
  · intro i1 j1 hj1 hb
    exact inv.tile i1 j1 hj1 ((before_next_row i1 j1 i colCount hj1).1 hb)
  · rw [gridPositions_succ, rowPositions_zero, List.append_nil]; exact inv.crates
  · rw [gridPositions_succ, rowPositions_zero, List.append_nil]; exact inv.targets
  · rcases inv.player with ⟨hp0, hnone⟩ | ⟨i1, j1, hj1, hb1, hc1, hp1, hlater⟩
    · left
      exact ⟨hp0, fun i1 j1 hj1 hb =>
        hnone i1 j1 hj1 ((before_next_row i1 j1 i colCount hj1).1 hb)⟩
    · right
      exact ⟨i1, j1, hj1, (before_next_row i1 j1 i colCount hj1).2 hb1, hc1, hp1,
        fun i2 j2 hj2 hb2 hb3 =>
          hlater i2 j2 hj2 ((before_next_row i2 j2 i colCount hj2).1 hb2) hb3⟩

theorem readInv_init (indeterminate : Nat → Nat → Char) (is0 : IStream)
    (rowCount colCount : Nat) :
    ReadInv indeterminate is0 rowCount colCount 0 0
      { is := is0
        board := { Sokoban.new with
          tiles := resize Sokoban.new.tiles rowCount (List.replicate colCount '\x00') }
        initialTilesTemp := List.replicate rowCount (List.replicate colCount '\x00')
        initialCratePositionsTemp := []
        initialPlayerPosTemp := ⟨0, 0⟩ } := by
  have hres : resize Sokoban.new.tiles rowCount (List.replicate colCount '\x00') =
      List.replicate rowCount (List.replicate colCount '\x00') := by
    simp [resize, Sokoban.new]
  constructor
  · simp [hres]
  · intro row hrow
    simp only [hres, List.mem_replicate] at hrow
    rw [hrow.2, List.length_replicate]
  · simp [hres]
  · rfl
  · rfl
  · rfl
  · simp
  · simp
  · intro i1 j1 _ hb
    unfold Before at hb
    omega
  · rfl
  · rfl
  · left
    refine ⟨rfl, ?_⟩
    intro i1 j1 _ hb
    unfold Before at hb
    omega

theorem readCells_spec (indeterminate : Nat → Nat → Char) (is0 : IStream)
    (rowCount colCount : Nat) (st0 : ReadState)
    (h0 : ReadInv indeterminate is0 rowCount colCount 0 0 st0) :
    ∃ st, readCells indeterminate rowCount colCount st0 = some st ∧
      ReadInv indeterminate is0 rowCount colCount rowCount 0 st := by
  unfold readCells
  have h := forLoop_inv
    (fun i st1 => forLoop (fun j st2 => readCell indeterminate i j st2) colCount 0 st1)
    (fun i st => ReadInv indeterminate is0 rowCount colCount i 0 st) rowCount 0 st0 h0
    (by
      intro i st1 _ hi hinv
      have hrow := forLoop_inv (fun j st2 => readCell indeterminate i j st2)
        (fun j st => ReadInv indeterminate is0 rowCount colCount i j st) colCount 0 st1 hinv
        (by
          intro j st2 _ hj hinv2
          exact readCell_step indeterminate is0 rowCount colCount i j st2 (by omega) (by omega)
            hinv2)
      obtain ⟨st2, hl, hinv2⟩ := hrow
      rw [Nat.zero_add] at hinv2
      exact ⟨st2, hl, readInv_next_row indeterminate is0 rowCount colCount i st2 hinv2⟩)
  rw [Nat.zero_add] at h
  exact h

theorem operatorExtract_loaded (indeterminate : Nat → Nat → Char) (is0 : IStream)
    (rowCount colCount : Nat) :
    ∃ is1 b, operatorExtract indeterminate rowCount colCount is0 Sokoban.new = some (is1, b) ∧
      LoadedFrom indeterminate is0 rowCount colCount is1 b := by
  obtain ⟨st, hst, inv⟩ := readCells_spec indeterminate is0 rowCount colCount _
    (readInv_init indeterminate is0 rowCount colCount)
  refine ⟨st.is, { st.board with
        initialTiles := st.initialTilesTemp
        initialPlayerPos := st.initialPlayerPosTemp
        initialCratePositions := st.initialCratePositionsTemp }, ?_, ?_⟩
  · unfold operatorExtract
    simp only [hst]
  · have hbefore : ∀ i j, Before i j rowCount 0 ↔ i < rowCount := by
      intro i j
      unfold Before
      omega
    constructor
    · exact inv.rows_eq
    · exact inv.cols_eq
    · exact inv.temp_tiles
    · exact inv.temp_crates
    · exact inv.temp_player
    · exact inv.texture
    · exact inv.pending
    · exact inv.failed
    · intro i j hi hj
      exact inv.tile i j hj ((hbefore i j).2 hi)
    · have := inv.crates
      rw [rowPositions_zero, List.append_nil] at this
      exact this
    · have := inv.targets
      rw [rowPositions_zero, List.append_nil] at this
      exact this
    · rcases inv.player with ⟨hp0, hnone⟩ | ⟨i1, j1, hj1, hb1, hc1, hp1, hlater⟩
      · left
        exact ⟨hp0, fun i j hi hj => hnone i j hj ((hbefore i j).2 hi)⟩
      · right
        exact ⟨i1, j1, (hbefore i1 j1).1 hb1, hj1, hc1, hp1,
          fun i2 j2 hi2 hj2 hb => hlater i2 j2 hj2 ((hbefore i2 j2).2 hi2) hb⟩

theorem mem_rowPositions (p : Char → Bool) (level : Nat → Nat → Char) (i n : Nat)
    (c : Vector2u) :
    c ∈ rowPositions p level i n ↔ ∃ j, j < n ∧ p (level i j) = true ∧ c = ⟨j, i⟩ := by
  unfold rowPositions
  simp only [List.mem_filterMap, List.mem_range]
  constructor
  · rintro ⟨j, hj, h⟩
    by_cases hp : p (level i j) = true
    · simp only [hp, if_true, Option.some.injEq] at h
      exact ⟨j, hj, hp, h.symm⟩
    · simp [hp] at h
  · rintro ⟨j, hj, hp, rfl⟩
    exact ⟨j, hj, by simp [hp]⟩

theorem mem_gridPositions (p : Char → Bool) (level : Nat → Nat → Char) (colCount m : Nat)
    (c : Vector2u) :
    c ∈ gridPositions p level colCount m ↔
      ∃ i j, i < m ∧ j < colCount ∧ p (level i j) = true ∧ c = ⟨j, i⟩ := by
  unfold gridPositions
  simp only [List.mem_flatMap, List.mem_range, mem_rowPositions]
  constructor
  · rintro ⟨i, hi, j, hj, hp, hc⟩
    exact ⟨i, j, hi, hj, hp, hc⟩
  · rintro ⟨i, j, hi, hj, hp, hc⟩
    exact ⟨i, hi, j, hj, hp, hc⟩

theorem rowPositions_nodup (p : Char → Bool) (level : Nat → Nat → Char) (i n : Nat) :
    (rowPositions p level i n).Nodup := by
  induction n with
  | zero => simp [rowPositions_zero]
  | succ n ih =>
    rw [rowPositions_succ]
    refine List.Nodup.append ih ?_ ?_
    · split
      · exact List.nodup_singleton _
      · exact List.nodup_nil
    · rw [List.disjoint_left]
      intro c hc hc2
      obtain ⟨j, hj, -, rfl⟩ := (mem_rowPositions p level i n c).1 hc
      split at hc2
      · simp only [List.mem_singleton, Vector2u.mk.injEq] at hc2
        omega
      · simp at hc2

theorem gridPositions_nodup (p : Char → Bool) (level : Nat → Nat → Char) (colCount m : Nat) :
    (gridPositions p level colCount m).Nodup := by
  induction m with
  | zero => simp [gridPositions]
  | succ m ih =>
    rw [gridPositions_succ]
    refine List.Nodup.append ih (rowPositions_nodup p level m colCount) ?_
    rw [List.disjoint_left]
    intro c hc hc2
    obtain ⟨i, j, hi, -, -, rfl⟩ := (mem_gridPositions p level colCount m c).1 hc
    obtain ⟨j2, -, -, h⟩ := (mem_rowPositions p level m colCount _).1 hc2
    simp only [Vector2u.mk.injEq] at h
    omega

/-! ## Sequences of moves -/

theorem movePlayer_frame {s : Sokoban} {d : Direction} {r : Bool × Sokoban}
    (h : movePlayer s d = some r) :
    r.2.tiles = s.tiles ∧ r.2.targetPositions = s.targetPositions ∧
      r.2.initialPlayerPos = s.initialPlayerPos ∧
      r.2.initialCratePositions = s.initialCratePositions ∧
      r.2.initialTiles = s.initialTiles := by
  have hc := movePlayer_cases h
  cases hc <;> exact ⟨rfl, rfl, rfl, rfl, rfl⟩

theorem width_congr {s s2 : Sokoban} (h : s2.tiles = s.tiles) : width s2 = width s := by
  unfold width
  rw [h]

theorem height_congr {s s2 : Sokoban} (h : s2.tiles = s.tiles) : height s2 = height s := by
  unfold height
  rw [h]

theorem rectangular_congr {s s2 : Sokoban} (h : s2.tiles = s.tiles) (hr : Rectangular s) :
    Rectangular s2 := by
  unfold Rectangular cols at *
  rw [h]
  exact hr

theorem onFloor_congr {s s2 : Sokoban} (h : s2.tiles = s.tiles) (p : Vector2u) :
    OnFloor s2 p ↔ OnFloor s p := by
  unfold OnFloor InGrid WallAt
  rw [width_congr h, height_congr h, h]

theorem onFloor_iff (s : Sokoban) (p : Vector2u) :
    OnFloor s p ↔ (p.x < toUnsigned (width s) ∧ p.y < toUnsigned (height s) ∧
      tileAt s.tiles p.y p.x ≠ some '#') := by
  unfold OnFloor InGrid WallAt
  simp only [Int.toNat_ofNat]
  constructor
  · rintro ⟨⟨-, hx, -, hy⟩, hw⟩
    exact ⟨by omega, by omega, hw⟩
  · rintro ⟨hx, hy, hw⟩
    exact ⟨⟨by omega, by omega, by omega, by omega⟩, hw⟩

theorem nodup_set {l : List Vector2u} (h : l.Nodup) {v : Vector2u} (hv : v ∉ l) (i : Nat) :
    (l.set i v).Nodup := by
  induction l generalizing i with
  | nil => simp
  | cons a l ih =>
    rw [List.nodup_cons] at h
    cases i with
    | zero =>
      simp only [List.set_cons_zero, List.nodup_cons]
      exact ⟨fun hm => hv (List.mem_cons_of_mem _ hm), h.2⟩
    | succ i =>
      simp only [List.set_cons_succ, List.nodup_cons]
      refine ⟨?_, ih h.2 (fun hm => hv (List.mem_cons_of_mem _ hm)) i⟩
      intro hm
      rcases List.mem_or_eq_of_mem_set hm with h1 | h1
      · exact h.1 h1
      · exact hv (h1 ▸ List.mem_cons_self _ _)

theorem movePlayer_nodup {s : Sokoban} {d : Direction} {r : Bool × Sokoban}
    (h : movePlayer s d = some r) (hnd : s.cratePositions.Nodup) :
    r.2.cratePositions.Nodup := by
  have hc := movePlayer_cases h
  cases hc with
  | push t it crate u hx hy htile hnw hfind hcrate hx2 hy2 hu hnw2 hfree =>
    exact nodup_set hnd (crateAtPosition_false.1 hfree) it
  | _ => exact hnd

theorem movePlayer_onFloor {s : Sokoban} {d : Direction} {r : Bool × Sokoban}
    (h : movePlayer s d = some r) (hp : OnFloor s s.playerPos)
    (hcr : ∀ c ∈ s.cratePositions, OnFloor s c) :
    OnFloor r.2 r.2.playerPos ∧ ∀ c ∈ r.2.cratePositions, OnFloor r.2 c := by
  have htiles := (movePlayer_frame h).1
  have hc := movePlayer_cases h
  simp only [onFloor_congr htiles]
  cases hc with
  | walk t hx hy htile hnw hfind =>
    refine ⟨?_, hcr⟩
    rw [onFloor_iff]
    refine ⟨hx, hy, ?_⟩
    rw [htile]
    simpa using hnw
  | push t it crate u hx hy htile hnw hfind hcrate hx2 hy2 hu hnw2 hfree =>
    refine ⟨?_, ?_⟩
    · rw [onFloor_iff]
      refine ⟨hx, hy, ?_⟩
      rw [htile]
      simpa using hnw
    · intro c hmem
      rcases List.mem_or_eq_of_mem_set hmem with h1 | h1
      · exact hcr c h1
      · rw [h1, onFloor_iff]
        refine ⟨hx2, hy2, ?_⟩
        rw [hu]
        simpa using hnw2
  | _ => exact ⟨hp, hcr⟩

theorem movePlayers_inv (P : Sokoban → Prop)
    (hrect : ∀ s, P s → Rectangular s)
    (hstep : ∀ s d r, P s → movePlayer s d = some r → P r.2)
    (ds : List Direction) (s : Sokoban) (h : P s) :
    ∃ s2, movePlayers s ds = some s2 ∧ P s2 := by
  induction ds generalizing s with
  | nil => exact ⟨s, rfl, h⟩
  | cons d ds ih =>
    obtain ⟨r, hr⟩ := movePlayer_total s d (hrect s h)
    obtain ⟨s2, hs2, hP⟩ := ih r.2 (hstep s d r h hr)
    refine ⟨s2, ?_, hP⟩
    simp only [movePlayers, hr, hs2]

/-! ## Loaded boards under moves -/

theorem loaded_rectangular {indeterminate : Nat → Nat → Char} {is0 is1 : IStream}
    {rowCount colCount : Nat} {b : Sokoban}
    (h : LoadedFrom indeterminate is0 rowCount colCount is1 b) : Rectangular b := by
  have hcols := h.cols_eq
  unfold Rectangular cols
  cases htiles : b.tiles with
  | nil => simp
  | cons row0 rest =>
    rw [htiles] at hcols
    intro row hrow
    simp only []
    rw [hcols row hrow, hcols row0 (List.mem_cons_self _ _)]

theorem loaded_height {indeterminate : Nat → Nat → Char} {is0 is1 : IStream}
    {rowCount colCount : Nat} {b : Sokoban}
    (h : LoadedFrom indeterminate is0 rowCount colCount is1 b) :
    height b = toInt rowCount := by
  unfold height
  rw [h.rows_eq]

theorem loaded_width {indeterminate : Nat → Nat → Char} {is0 is1 : IStream}
    {rowCount colCount : Nat} {b : Sokoban}
    (h : LoadedFrom indeterminate is0 rowCount colCount is1 b) (hrow : 1 ≤ rowCount) :
    width b = toInt colCount := by
  have hcols := h.cols_eq
  have hrows := h.rows_eq
  unfold width
  cases htiles : b.tiles with
  | nil => rw [htiles] at hrows; simp at hrows; omega
  | cons row0 rest =>
    rw [htiles] at hcols
    simp only []
    rw [hcols row0 (List.mem_cons_self _ _)]

theorem loaded_onFloor {indeterminate : Nat → Nat → Char} {is0 is1 : IStream}
    {rowCount colCount : Nat} {b : Sokoban}
    (h : LoadedFrom indeterminate is0 rowCount colCount is1 b)
    (hR : rowCount < 2 ^ 32) (hC : colCount < 2 ^ 32) {i j : Nat}
    (hi : i < rowCount) (hj : j < colCount)
    (hne : cellChar indeterminate is0 colCount i j ≠ '#') : OnFloor b ⟨j, i⟩ := by
  rw [onFloor_iff, loaded_width h (by omega), loaded_height h, toUnsigned_toInt,
    toUnsigned_toInt, Nat.mod_eq_of_lt hR, Nat.mod_eq_of_lt hC]
  refine ⟨hj, hi, ?_⟩
  rw [h.tile i j hi hj]
  simpa using hne

theorem loaded_crates_onFloor {indeterminate : Nat → Nat → Char} {is0 is1 : IStream}
    {rowCount colCount : Nat} {b : Sokoban}
    (h : LoadedFrom indeterminate is0 rowCount colCount is1 b)
    (hR : rowCount < 2 ^ 32) (hC : colCount < 2 ^ 32) :
    ∀ c ∈ b.cratePositions, OnFloor b c := by
  intro c hc
  rw [h.crates] at hc
  obtain ⟨i, j, hi, hj, hp, rfl⟩ := (mem_gridPositions _ _ _ _ c).1 hc
  refine loaded_onFloor h hR hC hi hj ?_
  rw [isCrateChar_eq] at hp
  rcases hp with hp | hp <;> rw [hp] <;> decide

theorem cellChar_of_pending (indeterminate : Nat → Nat → Char) {is0 : IStream}
    {colCount i j : Nat} {c : Char} (h : is0.pending[i * colCount + j]? = some c) :
    cellChar indeterminate is0 colCount i j = c := by
  unfold cellChar
  rw [h]
  rfl

/-- Claim C6. For every level read by `operator>>` into a freshly constructed board and
every finite sequence of `movePlayer` calls, the calls return and the crate positions are
pairwise distinct afterwards. -/
theorem loaded_moves_nodup (indeterminate : Nat → Nat → Char) (is0 : IStream)
    (rowCount colCount : Nat) (ds : List Direction) :
    ∃ is1 b s, operatorExtract indeterminate rowCount colCount is0 Sokoban.new = some (is1, b) ∧
      movePlayers b ds = some s ∧ s.cratePositions.Nodup := by
  obtain ⟨is1, b, hload, hl⟩ := operatorExtract_loaded indeterminate is0 rowCount colCount
  obtain ⟨s, hs, -, hP⟩ := movePlayers_inv
    (fun s => Rectangular s ∧ s.cratePositions.Nodup)
    (fun s h => h.1)
    (fun s d r h hr =>
      ⟨rectangular_congr (movePlayer_frame hr).1 h.1, movePlayer_nodup hr h.2⟩)
    ds b ⟨loaded_rectangular hl, by rw [hl.crates]; exact gridPositions_nodup _ _ _ _⟩
  exact ⟨is1, b, s, hload, hs, hP⟩

/-- Claim C7. For every level read by `operator>>` into a freshly constructed board and
every finite sequence of `movePlayer` calls, `resetLevel` afterwards makes the player
position and the crate list equal to their values right after the load, and `isWon` takes
the value it had right after the load. -/
theorem loaded_moves_reset (indeterminate : Nat → Nat → Char) (is0 : IStream)
    (rowCount colCount : Nat) (ds : List Direction) :
    ∃ is1 b s, operatorExtract indeterminate rowCount colCount is0 Sokoban.new = some (is1, b) ∧
      movePlayers b ds = some s ∧
      (resetLevel s).playerPos = b.playerPos ∧
      (resetLevel s).cratePositions = b.cratePositions ∧
      isWon (resetLevel s) = isWon b := by
  obtain ⟨is1, b, hload, hl⟩ := operatorExtract_loaded indeterminate is0 rowCount colCount
  obtain ⟨s, hs, -, h1, h2, h3⟩ := movePlayers_inv
    (fun s => Rectangular s ∧ s.initialPlayerPos = b.initialPlayerPos ∧
      s.initialCratePositions = b.initialCratePositions ∧
      s.targetPositions = b.targetPositions)
    (fun s h => h.1)
    (fun s d r h hr => by
      obtain ⟨f1, f2, f3, f4, -⟩ := movePlayer_frame hr
      exact ⟨rectangular_congr f1 h.1, f3.trans h.2.1, f4.trans h.2.2.1, f2.trans h.2.2.2⟩)
    ds b ⟨loaded_rectangular hl, rfl, rfl, rfl⟩
  refine ⟨is1, b, s, hload, hs, ?_, ?_, ?_⟩
  · show s.initialPlayerPos = b.playerPos
    rw [h1, hl.init_player]
  · show s.initialCratePositions = b.cratePositions
    rw [h2, hl.init_crates]
  · have hc : (resetLevel s).cratePositions = b.cratePositions := by
      show s.initialCratePositions = b.cratePositions
      rw [h2, hl.init_crates]
    have ht : (resetLevel s).targetPositions = b.targetPositions := h3
    unfold isWon
    rw [hc, ht]

/-! ## The loaded level -/

theorem cell_index_lt {rowCount colCount i j : Nat} (hi : i < rowCount) (hj : j < colCount) :
    i * colCount + j < rowCount * colCount := by
  have h1 : (i + 1) * colCount ≤ rowCount * colCount := Nat.mul_le_mul_right colCount hi
  have h2 : (i + 1) * colCount = i * colCount + colCount := Nat.succ_mul i colCount
  omega

theorem before_trichotomy (i j i2 j2 : Nat) :
    Before i j i2 j2 ∨ (i = i2 ∧ j = j2) ∨ Before i2 j2 i j := by
  unfold Before
  omega

theorem loaded_player_last {indeterminate : Nat → Nat → Char} {is0 is1 : IStream}
    {rowCount colCount : Nat} {b : Sokoban}
    (h : LoadedFrom indeterminate is0 rowCount colCount is1 b) {i j : Nat}
    (hi : i < rowCount) (hj : j < colCount)
    (hat : cellChar indeterminate is0 colCount i j = '@')
    (hlast : ∀ i2 j2, i2 < rowCount → j2 < colCount → Before i j i2 j2 →
      cellChar indeterminate is0 colCount i2 j2 ≠ '@') :
    b.playerPos = ⟨j, i⟩ := by
  rcases h.player with ⟨-, hnone⟩ | ⟨i1, j1, hi1, hj1, hc1, hp1, hlater⟩
  · exact absurd hat (hnone i j hi hj)
  · rcases before_trichotomy i j i1 j1 with hb | ⟨h1, h2⟩ | hb
    · exact absurd hc1 (hlast i1 j1 hi1 hj1 hb)
    · rw [hp1, h1, h2]
    · exact absurd hat (hlater i j hi hj hb)

theorem loaded_tiles {indeterminate : Nat → Nat → Char} {is0 is1 : IStream}
    {rowCount colCount : Nat} {b : Sokoban}
    (h : LoadedFrom indeterminate is0 rowCount colCount is1 b) :
    b.tiles = (List.range rowCount).map
      (fun i => (List.range colCount).map (cellChar indeterminate is0 colCount i)) := by
  apply List.ext_getElem?
  intro i
  by_cases hi : i < rowCount
  · have hlt : i < b.tiles.length := by rw [h.rows_eq]; exact hi
    rw [List.getElem?_eq_getElem hlt, List.getElem?_map, List.getElem?_range hi]
    simp only [Option.map_some', Option.some.injEq]
    have hlen : (b.tiles[i]).length = colCount := h.cols_eq _ (List.getElem_mem _)
    apply List.ext_getElem?
    intro j
    by_cases hj : j < colCount
    · have ht := h.tile i j hi hj
      unfold tileAt at ht
      rw [List.getElem?_eq_getElem hlt] at ht
      simp only [] at ht
      rw [ht, List.getElem?_map, List.getElem?_range hj]
      rfl
    · rw [List.getElem?_eq_none (by omega), List.getElem?_eq_none (by simp; omega)]
  · rw [List.getElem?_eq_none (by rw [h.rows_eq]; omega),
      List.getElem?_eq_none (by simp; omega)]

theorem pending_of_good {is0 : IStream} (h : is0.failed = false) :
    is0.pending = tokens is0.buf := by
  simp [IStream.pending, h]

theorem wallAt_cell (s : Sokoban) (i j : Nat) :
    WallAt s (j : Int) (i : Int) ↔ tileAt s.tiles i j = some '#' := by
  unfold WallAt
  simp only [Int.toNat_ofNat]

theorem toInt_of_lt {n : Nat} (h : n < 2 ^ 31) : toInt n = (n : Int) := by
  unfold toInt
  have : n % 2 ^ 32 = n := Nat.mod_eq_of_lt (by omega)
  rw [this, if_pos h]

/-- A well-formed level text that holds any character, such as the player marker, has at
least one row. -/
theorem one_le_rowCount_of_cell {text : List Char} {rowCount colCount k : Nat} {c : Char}
    (htext : (tokens text).length = rowCount * colCount) (hk : (tokens text)[k]? = some c) :
    1 ≤ rowCount := by
  rcases Nat.eq_zero_or_pos rowCount with h0 | hpos
  · rw [h0, Nat.zero_mul] at htext
    rw [List.getElem?_eq_none (by omega)] at hk
    cases hk
  · exact hpos

theorem tokens_wideRow (n : Nat) : tokens (wideRow n).buf = '@' :: List.replicate n '.' := by
  show List.filter (fun c => !isspace c) ('@' :: List.replicate n '.') = _
  rw [List.filter_eq_self]
  intro a ha
  have hmem : a = '@' ∨ a ∈ List.replicate n '.' := List.mem_cons.1 ha
  rcases hmem with rfl | hrep
  · decide
  · rw [List.eq_of_mem_replicate hrep]
    decide

/-- Claim C9, amended. `operator>>` has no `MalformedLevel` path and rejects no level: for
every level text read into a freshly constructed board it returns a board with `rowCount`
rows of `colCount` cells, each holding the character read for it, or the indeterminate
value where the text had run out. The stream is left in its failed state exactly when it
had failed before or the text holds fewer than `rowCount * colCount` non-blank characters.
When no
cell holds `'@'` the player is at `(0, 0)`; when several do, the player is at the last one
in row-major order. -/
theorem operatorExtract_never_rejects (indeterminate : Nat → Nat → Char) (is0 : IStream)
    (rowCount colCount : Nat) :
    ∃ is1 b, operatorExtract indeterminate rowCount colCount is0 Sokoban.new = some (is1, b) ∧
      b.tiles.length = rowCount ∧ (∀ row ∈ b.tiles, row.length = colCount) ∧
      (∀ i j, i < rowCount → j < colCount →
        tileAt b.tiles i j = some (cellChar indeterminate is0 colCount i j)) ∧
      (is1.failed = true ↔
        (is0.failed = true ∨ is0.pending.length < rowCount * colCount)) ∧
      ((∀ i j, i < rowCount → j < colCount →
          cellChar indeterminate is0 colCount i j ≠ '@') → b.playerPos = ⟨0, 0⟩) ∧
      (∀ i j, i < rowCount → j < colCount →
        cellChar indeterminate is0 colCount i j = '@' →
        (∀ i2 j2, i2 < rowCount → j2 < colCount → Before i j i2 j2 →
          cellChar indeterminate is0 colCount i2 j2 ≠ '@') →
        b.playerPos = ⟨j, i⟩) := by
  obtain ⟨is1, b, hload, hl⟩ := operatorExtract_loaded indeterminate is0 rowCount colCount
  refine ⟨is1, b, hload, hl.rows_eq, hl.cols_eq, hl.tile, hl.failed, ?_, ?_⟩
  · intro hnone
    rcases hl.player with ⟨hp0, -⟩ | ⟨i1, j1, hi1, hj1, hc1, -, -⟩
    · exact hp0
    · exact absurd hc1 (hnone i1 j1 hi1 hj1)
  · intro i j hi hj hat hlast
    exact loaded_player_last hl hi hj hat hlast

/-- Claim C9 as stated fails. Three malformed levels are loaded: one without a player
marker (the stream stays good, the player is at `(0, 0)`), one with two player markers
(the stream stays good, the player is at the second), and one declared `2 3` whose rows
hold two characters each (a board of two rows of three cells is produced, the second row
drawing on the indeterminate values). -/
theorem operatorExtract_accepts_malformed :
    (∃ is1 b, operatorExtract nullFill 3 3 noPlayerText Sokoban.new = some (is1, b) ∧
      is1.failed = false ∧ b.playerPos = ⟨0, 0⟩ ∧
      b.tiles = [['#', '#', '#'], ['#', '.', '.'], ['#', '#', '#']]) ∧
    (∃ is1 b, operatorExtract nullFill 1 4 ⟨"@.@.".toList, false⟩ Sokoban.new = some (is1, b) ∧
      is1.failed = false ∧ b.playerPos = ⟨2, 0⟩ ∧ b.tiles = [['@', '.', '@', '.']]) ∧
    (∃ is1 b, operatorExtract nullFill 2 3 ⟨"#@\n#.\n".toList, false⟩ Sokoban.new =
        some (is1, b) ∧
      b.playerPos = ⟨1, 0⟩ ∧ b.tiles = [['#', '@', '#'], ['.', '\x00', '\x00']]) := by
  refine ⟨⟨⟨['\n'], false⟩,
      { Sokoban.new with
        tiles := [['#', '#', '#'], ['#', '.', '.'], ['#', '#', '#']]
        initialTiles := [['#', '#', '#'], ['#', '.', '.'], ['#', '#', '#']] },
      by decide, rfl, rfl, rfl⟩,
    ⟨⟨[], false⟩,
      { Sokoban.new with
        playerPos := ⟨2, 0⟩
        initialPlayerPos := ⟨2, 0⟩
        tiles := [['@', '.', '@', '.']]
        initialTiles := [['@', '.', '@', '.']] },
      by decide, rfl, rfl, rfl⟩,
    ⟨⟨[], true⟩,
      { Sokoban.new with
        playerPos := ⟨1, 0⟩
        initialPlayerPos := ⟨1, 0⟩
        tiles := [['#', '@', '#'], ['.', '\x00', '\x00']]
        initialTiles := [['#', '@', '#'], ['.', '\x00', '\x00']] },
      by decide, rfl, rfl⟩⟩

theorem movePlayers_tiles (indeterminate : Nat → Nat → Char) {is0 is1 : IStream}
    {rowCount colCount : Nat} {b : Sokoban}
    (hl : LoadedFrom indeterminate is0 rowCount colCount is1 b) (ds : List Direction) :
    ∃ s, movePlayers b ds = some s ∧ s.tiles = b.tiles := by
  obtain ⟨s, hs, -, hP⟩ := movePlayers_inv
    (fun s => Rectangular s ∧ s.tiles = b.tiles)
    (fun s h => h.1)
    (fun s d r h hr =>
      ⟨rectangular_congr (movePlayer_frame hr).1 h.1, (movePlayer_frame hr).1.trans h.2⟩)
    ds b ⟨loaded_rectangular hl, rfl⟩
  exact ⟨s, hs, hP⟩

/-- Claim C10, amended. For every level with at least one row read by `operator>>` into a
freshly constructed board, and after any finite sequence of `movePlayer` calls, `operator<<`
writes the row count, a space, the column count and a newline, then each grid row followed
by a newline, and nothing else; the cell characters written are the characters stored at
load time, that is the level's own characters, player, crate and target markers included,
whatever moves were made since. -/
theorem operatorInsert_loaded (indeterminate : Nat → Nat → Char) (is0 : IStream)
    (rowCount colCount : Nat) (ds : List Direction) (hrow : 1 ≤ rowCount) :
    ∃ is1 b s, operatorExtract indeterminate rowCount colCount is0 Sokoban.new = some (is1, b) ∧
      movePlayers b ds = some s ∧
      operatorInsert s =
        some (Nat.toDigits 10 rowCount ++ [' '] ++ Nat.toDigits 10 colCount ++ ['\n'] ++
          (List.range rowCount).flatMap (fun i =>
            (List.range colCount).map (cellChar indeterminate is0 colCount i) ++ ['\n'])) := by
  obtain ⟨is1, b, hload, hl⟩ := operatorExtract_loaded indeterminate is0 rowCount colCount
  obtain ⟨s, hs, htiles⟩ := movePlayers_tiles indeterminate hl ds
  refine ⟨is1, b, s, hload, hs, ?_⟩
  have hrows := hl.rows_eq
  have hcols := hl.cols_eq
  have hgrid := loaded_tiles hl
  unfold operatorInsert
  rw [htiles]
  cases hb : b.tiles with
  | nil => rw [hb] at hrows; simp at hrows; omega
  | cons row0 rest =>
    simp only []
    rw [← hb, hrows, hcols row0 (by rw [hb]; exact List.mem_cons_self _ _)]
    congr 2
    rw [hgrid, List.flatMap_map]

/-- Claim C10, an instance: the level `3 3 / ### / #@. / ###` after `movePlayer Right`;
the text written still shows the player marker at its initial cell. -/
theorem operatorInsert_loaded_witness :
    (1 ≤ 3) ∧
    ∃ is1 b s, operatorExtract nullFill 3 3 closedBoxText Sokoban.new = some (is1, b) ∧
      movePlayers b [Direction.Right] = some s ∧
      operatorInsert s = some "3 3\n###\n#@.\n###\n".toList := by
  obtain ⟨is1, b, s, hload, hs, hout⟩ :=
    operatorInsert_loaded nullFill closedBoxText 3 3 [Direction.Right] (by norm_num)
  refine ⟨by norm_num, is1, b, s, hload, hs, ?_⟩
  rw [hout]
  decide

/-- Claim C10 as stated fails. For the level `3 5 / ##### / #@A1a / #####` the text
written by `operator<<` holds the markers `'@'`, `'A'`, `'a'` and `'1'`. On a board
without rows `board.tiles[0]` is out of range. -/
theorem operatorInsert_writes_markers :
    (∃ is1 b out, operatorExtract nullFill 3 5 mixedText Sokoban.new = some (is1, b) ∧
      operatorInsert b = some out ∧ out = "3 5\n#####\n#@A1a\n#####\n".toList ∧
      '@' ∈ out ∧ 'A' ∈ out ∧ 'a' ∈ out ∧ '1' ∈ out) ∧
    (∃ is1 b, operatorExtract nullFill 0 5 ⟨[], false⟩ Sokoban.new = some (is1, b) ∧
      operatorInsert b = none) := by
  refine ⟨⟨⟨['\n'], false⟩,
    { Sokoban.new with
      playerPos := ⟨1, 1⟩
      cratePositions := [⟨2, 1⟩, ⟨3, 1⟩]
      targetPositions := [⟨3, 1⟩, ⟨4, 1⟩]
      initialPlayerPos := ⟨1, 1⟩
      initialCratePositions := [⟨2, 1⟩, ⟨3, 1⟩]
      tiles := ["#####".toList, "#@A1a".toList, "#####".toList]
      initialTiles := ["#####".toList, "#@A1a".toList, "#####".toList] },
    "3 5\n#####\n#@A1a\n#####\n".toList,
    by decide, by decide, rfl, by decide, by decide, by decide, by decide⟩,
    ⟨⟨[], false⟩, Sokoban.new, by decide, by decide⟩⟩

end SokobanGame
